import Mathlib

/-!
Verification development for the table-annotator backend.

The Python modules `table_annotator/img.py` and `api.py` are embedded
shallowly: images are lists of pixel rows, numpy slicing is modelled by
`pySlice`, the filesystem seen by the HTTP handlers is an association
list from file names to file contents, and machine floats in the
row-prediction heuristic are modelled by exact rationals/reals.
-/

namespace TableAnnotator

/-- Modelled from the spec (the module defining the geometry types is not
part of the provided sources): an integer coordinate pair in pixel space. -/
structure Point where
  x : ℤ
  y : ℤ
deriving DecidableEq, Repr

/-- Modelled from the spec: translation adds the offset to both coordinates. -/
def Point.translate (p off : Point) : Point :=
  ⟨p.x + off.x, p.y + off.y⟩

/-- Modelled from the spec: an axis-aligned box given by two corner points. -/
structure Rectangle where
  topLeft : Point
  bottomRight : Point
deriving DecidableEq, Repr

/-- Modelled from the spec: `width() = bottomRight.x - topLeft.x`. -/
def Rectangle.width (r : Rectangle) : ℤ :=
  r.bottomRight.x - r.topLeft.x

/-- Modelled from the spec: `height() = bottomRight.y - topLeft.y`. -/
def Rectangle.height (r : Rectangle) : ℤ :=
  r.bottomRight.y - r.topLeft.y

/-- Modelled from the spec: both corners shifted by the offset. -/
def Rectangle.translate (r : Rectangle) (off : Point) : Rectangle :=
  ⟨r.topLeft.translate off, r.bottomRight.translate off⟩

/-- Modelled from the spec: a table annotation (outline, row/column boundary
offsets, skew angle; the float angle is modelled as a rational). -/
structure Table where
  outline : Rectangle
  rows : List ℤ
  columns : List ℤ
  rotationDegrees : ℚ

/-- Python/numpy slice-bound normalisation for a sequence of length `n`:
a negative index counts from the end (clamped at 0), a nonnegative index is
clamped at `n`. -/
def pyIndex (n : ℕ) (i : ℤ) : ℕ :=
  if i < 0 then ((n : ℤ) + i).toNat else min i.toNat n

/-- Python/numpy slice `l[a:b]` with integer bounds. -/
def pySlice {α : Type} (l : List α) (a b : ℤ) : List α :=
  (l.take (pyIndex l.length b)).drop (pyIndex l.length a)

/-- `img.crop`: `image[max(tl.y,0):max(br.y,0), max(tl.x,0):max(br.x,0)]`. -/
def crop {α : Type} (image : List (List α)) (rect : Rectangle) : List (List α) :=
  (pySlice image (max rect.topLeft.y 0) (max rect.bottomRight.y 0)).map
    (fun row => pySlice row (max rect.topLeft.x 0) (max rect.bottomRight.x 0))

/-- `img.BORDER_OFFSET`. -/
def BORDER_OFFSET : ℤ := 5

/-- `img.ROW_COLUMN_WIDTH`. -/
def ROW_COLUMN_WIDTH : ℤ := 3

/-- `img.get_cell_grid`: cell rectangles from the row/column boundaries. -/
def get_cell_grid (table : Table) : List (List Rectangle) :=
  let rows := 0 :: table.rows ++ [table.outline.height]
  let columns := 0 :: table.columns ++ [table.outline.width]
  (List.range (rows.length - 1)).map (fun r_i =>
    (List.range (columns.length - 1)).map (fun c_i =>
      { topLeft := ⟨columns.getD c_i 0, rows.getD r_i 0⟩
        bottomRight := ⟨columns.getD (c_i + 1) 0, rows.getD (r_i + 1) 0⟩ }))

/-- `img.extract_table_image`, parameterised by the rotation primitive
(`scipy.ndimage.rotate` is third-party; the spec only requires it to
preserve the image shape, which the theorems take as a hypothesis). -/
def extract_table_image (rotateF : List (List (List ℕ)) → ℚ → List (List (List ℕ)))
    (image : List (List (List ℕ))) (table : Table) : List (List (List ℕ)) :=
  let image_rotated_for_table := rotateF image (-table.rotationDegrees)
  crop image_rotated_for_table
    (table.outline.translate ⟨BORDER_OFFSET, BORDER_OFFSET⟩)

/-- Concrete fixture image for the crop clamping instance: 100 × 200 × 3. -/
def imgFixture : List (List (List ℕ)) :=
  List.replicate 100 (List.replicate 200 (List.replicate 3 0))

/-- Concrete fixture table: outline 30 wide and 20 high, one row boundary
and two column boundaries. -/
def tblFixture : Table :=
  { outline := ⟨⟨0, 0⟩, ⟨30, 20⟩⟩, rows := [10], columns := [12, 20],
    rotationDegrees := 0 }

/-- Concrete fixture image for the table-extraction instance: 20 × 20 × 3. -/
def imgExtract : List (List (List ℕ)) :=
  List.replicate 20 (List.replicate 20 (List.replicate 3 0))

/-- Concrete fixture table whose translated outline lies inside `imgExtract`. -/
def tblExtract : Table :=
  { outline := ⟨⟨0, 0⟩, ⟨5, 5⟩⟩, rows := [], columns := [], rotationDegrees := 0 }

/-- A generic JSON value, as produced by the HTTP framework for a request
body and stored verbatim by the annotation endpoints. -/
inductive JVal where
  | null
  | bool (b : Bool)
  | num (n : ℤ)
  | str (s : String)
  | arr (items : List JVal)
  | obj (fields : List (String × JVal))

/-- Contents of one file in the configured image directory: an image, a JSON
document, or anything else. -/
inductive FileData where
  | image
  | jsonF (v : JVal)
  | other

/-- Body of a table-endpoint response: either a message object or a
`tables` payload. -/
inductive RespBody where
  | msg (m : String)
  | tables (t : JVal)

/-- `os.path.basename` on POSIX: the part after the last slash. -/
def basename (s : String) : String :=
  String.mk ((s.toList.reverse.takeWhile (fun c => decide (c ≠ '/'))).reverse)

/-- Lookup of a file name in the directory association list
(`os.path.isfile` / reading a file is lookup in the model). -/
def fsLookup (fs : List (String × FileData)) (k : String) : Option FileData :=
  match fs with
  | [] => none
  | (k2, v) :: rest => if k = k2 then some v else fsLookup rest k

/-- Index of the last dot of a character list, if any. -/
def rlastDotIdx (cs : List Char) : Option ℕ :=
  ((List.range cs.length).filter (fun i => decide (cs.getD i ' ' = '.'))).getLast?

/-- `os.path.splitext(s)[0]` for a path without directory separators: the
part before the last dot, unless every character before that dot is a dot. -/
def splitextRoot (s : String) : String :=
  match rlastDotIdx s.toList with
  | none => s
  | some i =>
    if (List.range i).any (fun k => decide (s.toList.getD k ' ' ≠ '.')) then
      String.mk (s.toList.take i)
    else s

/-- `os.path.splitext(s)[1]` for a path without directory separators. -/
def splitextExt (s : String) : String :=
  match rlastDotIdx s.toList with
  | none => ""
  | some i =>
    if (List.range i).any (fun k => decide (s.toList.getD k ' ' ≠ '.')) then
      String.mk (s.toList.drop i)
    else ""

/-- Modelled from the spec (the persistence module is not part of the
provided sources): `write_json` overwrites the file of that name, leaving
every other directory entry unchanged. The directory is an association list
from file name to contents. -/
def fsWrite (fs : List (String × FileData)) (k : String) (v : FileData) :
    List (String × FileData) :=
  (k, v) :: fs.filter (fun p => decide (p.1 ≠ k))

/-- `api.store_tables` (`POST /tables/<image_name>`): returns the response
and the directory state after the request; the stored file is named
`splitext(basename(image_name))[0] + ".json"`. -/
def store_tables (fs : List (String × FileData)) (image_name : String)
    (body : JVal) : ((ℕ × RespBody) × List (String × FileData)) :=
  if (fsLookup fs (basename image_name)).isSome = false then
    ((404, RespBody.msg
      "The image for which you tried to save table data does not exist."), fs)
  else
    ((200, RespBody.msg "okay!"),
     fsWrite fs (splitextRoot (basename image_name) ++ ".json")
       (FileData.jsonF body))

/-- `api.get_tables` (`GET /tables/<image_name>`): `none` models a
propagated decoding failure (the file beside the image is not JSON). -/
def get_tables (fs : List (String × FileData)) (image_name : String) :
    Option (ℕ × RespBody) :=
  if (fsLookup fs (basename image_name)).isSome = false then
    some (404, RespBody.msg
      "The image for which you tried to retrieve table data does not exist.")
  else
    match fsLookup fs (splitextRoot (basename image_name) ++ ".json") with
    | none => some (200, RespBody.tables (JVal.arr []))
    | some (FileData.jsonF v) => some (200, RespBody.tables v)
    | some _ => none

/-- One entry of the `GET /images` listing. -/
structure ImageMeta where
  src : String
  width : ℕ
  height : ℕ
  center : ℕ × ℕ
  name : String

/-- `api.list_images` (`GET /images`), parameterised by the pixel
dimensions read from each file (`io.read_image` plus `get_dimensions`). -/
def list_images (files : List String) (dims : String → ℕ × ℕ) :
    List ImageMeta :=
  (files.filter (fun f =>
      decide (splitextExt f = ".jpeg") || decide (splitextExt f = ".jpg"))).map
    (fun f =>
      { src := "image/" ++ f, width := (dims f).1, height := (dims f).2,
        center := ((dims f).1 / 2, (dims f).2 / 2), name := f })

/-- One row's contribution to the cell-grid mapping of
`img.cell_grid_to_list`: key `(i, j)` maps to list position `acc + j`. -/
def rowPairs {α : Type} (i acc : ℕ) : ℕ → List α → List ((ℕ × ℕ) × ℕ)
  | _, [] => []
  | j, _ :: rest => ((i, j), acc + j) :: rowPairs i acc (j + 1) rest

/-- The mapping built by `img.cell_grid_to_list`, starting at row index `i`
with `acc` cells already emitted. -/
def cg2lRows {α : Type} : ℕ → ℕ → List (List α) → List ((ℕ × ℕ) × ℕ)
  | _, _, [] => []
  | i, acc, row :: rest =>
    rowPairs i acc 0 row ++ cg2lRows (i + 1) (acc + row.length) rest

/-- `img.cell_grid_to_list`: the row-major cell list plus the mapping from
grid position to list position (the Python dict is modelled by the
insertion-ordered association list of its entries). -/
def cell_grid_to_list {α : Type} (cell_grid : List (List α)) :
    List α × List ((ℕ × ℕ) × ℕ) :=
  (cell_grid.flatten, cg2lRows 0 0 cell_grid)

/-- Lexicographic order on grid keys, as Python `sorted` orders int pairs. -/
def lexLe (p q : ℕ × ℕ) : Bool :=
  decide (p.1 < q.1) || (decide (p.1 = q.1) && decide (p.2 ≤ q.2))

/-- Ordered insertion for the model of Python `sorted`. -/
def insertPair {α : Type} (kv : (ℕ × ℕ) × α) :
    List ((ℕ × ℕ) × α) → List ((ℕ × ℕ) × α)
  | [] => [kv]
  | kv2 :: rest =>
    if lexLe kv.1 kv2.1 then kv :: kv2 :: rest else kv2 :: insertPair kv rest

/-- Insertion sort by key, modelling Python `sorted` over the dict keys. -/
def sortPairs {α : Type} : List ((ℕ × ℕ) × α) → List ((ℕ × ℕ) × α)
  | [] => []
  | kv :: rest => insertPair kv (sortPairs rest)

/-- One iteration of `img.list_to_cell_grid`: start a fresh grid row when the
key's row index differs from the previous one, then append `cells[v]` to grid
row `i`; `none` models the Python `IndexError` when grid row `i` does not
exist (and the out-of-range list access `cells[v]`). -/
def l2cgStep {α : Type} (cells : List α)
    (st : Option (List (List α) × Option ℕ)) (kv : (ℕ × ℕ) × ℕ) :
    Option (List (List α) × Option ℕ) :=
  match st, kv with
  | none, _ => none
  | some (grid, lastI), ((i, _), v) =>
    let grid1 := if lastI = some i then grid else grid ++ [[]]
    if i < grid1.length then
      match cells[v]? with
      | none => none
      | some c => some (grid1.set i (grid1.getD i [] ++ [c]), some i)
    else none

/-- `img.list_to_cell_grid`. -/
def list_to_cell_grid {α : Type} (cells : List α)
    (mapping : List ((ℕ × ℕ) × ℕ)) : Option (List (List α)) :=
  ((sortPairs mapping).foldl (l2cgStep cells) (some ([], none))).map Prod.fst

/-- `np.dot` on histogram count vectors. -/
def dotL (a b : List ℕ) : ℕ :=
  (List.zipWith (· * ·) a b).sum

/-- `np.histogram(xs, bins=range(0, 256, 51))[0]`: counts over the five
intensity bins `[0,51)`, `[51,102)`, `[102,153)`, `[153,204)`, `[204,255]`
(the last bin of `np.histogram` includes its right edge). -/
def hist5 (vs : List ℕ) : List ℕ :=
  [vs.countP (fun v => decide (v < 51)),
   vs.countP (fun v => decide (51 ≤ v ∧ v < 102)),
   vs.countP (fun v => decide (102 ≤ v ∧ v < 153)),
   vs.countP (fun v => decide (153 ≤ v ∧ v < 204)),
   vs.countP (fun v => decide (204 ≤ v ∧ v ≤ 255))]

/-- Python `range(a, b)` over integers. -/
def intRange (a b : ℤ) : List ℤ :=
  (List.range (b - a).toNat).map (fun k : ℕ => a + (k : ℤ))

/-- Row-prediction step: the single row's own offset when exactly one row
exists, otherwise the gap between the last two recorded row offsets. -/
def last_row_height (table : Table) : ℤ :=
  if table.rows.length = 1 then table.rows.getD 0 0
  else table.rows.getD (table.rows.length - 1) 0 -
    table.rows.getD (table.rows.length - 2) 0

/-- The last recorded row offset. -/
def last_row_position (table : Table) : ℤ :=
  table.rows.getD (table.rows.length - 1) 0

/-- Row-prediction search centre: last row offset plus last row height. -/
def search_center (table : Table) : ℤ :=
  last_row_position table + last_row_height table

/-- Candidate offsets: `range(search_center - 10, search_center + 10)`
restricted to offsets strictly below the outline height. -/
def candidate_row_positions (table : Table) : List ℤ :=
  (intRange (search_center table - 10) (search_center table + 10)).filter
    (fun crp => decide (crp < table.outline.height))

/-- The 3-pixel-high strip of the grayscale table image at an offset:
`table_image[row_pos:row_pos + ROW_COLUMN_WIDTH]`. -/
def row_strip (table_image : List (List ℕ)) (pos : ℤ) : List (List ℕ) :=
  pySlice table_image pos (pos + ROW_COLUMN_WIDTH)

/-- Histogram feature vector of a strip (`np.histogram` flattens its
input array). -/
def strip_hist (table_image : List (List ℕ)) (pos : ℤ) : List ℕ :=
  hist5 (row_strip table_image pos).flatten

/-- Comparison key modelling float cosine-similarity maximisation on
nonnegative integer vectors: `dot(a, b)^2 / dot(b, b)` as an exact rational
(built with `mkRat` so that it evaluates). For positive squared norms this
orders candidates exactly as the cosine similarity against the fixed vector
`a` does (`simKey_le_iff`). -/
def simKey (a b : List ℕ) : ℚ :=
  mkRat ((dotL a b * dotL a b : ℕ) : ℤ) (dotL b b)

/-- `np.argmax` accumulator: first index of the maximum, scanning from
index `i` with current best index `bi` and best value `bv`. -/
def argmaxAux : List ℚ → ℕ → ℕ → ℚ → ℕ
  | [], _, bi, _ => bi
  | x :: rest, i, bi, bv =>
    if bv < x then argmaxAux rest (i + 1) i x else argmaxAux rest (i + 1) bi bv

/-- `np.argmax` over the similarity scores (first occurrence of the
maximum). -/
def argmaxIdx : List ℚ → ℕ
  | [] => 0
  | x :: rest => argmaxAux rest 1 0 x

/-- `img.predict_next_row_position`, with the cached grayscale table image
(`get_table_image_bw(image_path, table.outline, table.rotationDegrees)`)
passed explicitly in place of the image path. -/
def predict_next_row_position (table_image : List (List ℕ)) (table : Table) :
    Option ℤ :=
  if table.rows.length = 0 then none
  else if (candidate_row_positions table).length = 0 then none
  else
    some ((candidate_row_positions table).getD
      (argmaxIdx ((candidate_row_positions table).map
        (fun crp => simKey (strip_hist table_image (last_row_position table))
          (strip_hist table_image crp)))) 0)

/-- `img.cosine_similarity` over the reals:
`dot(a, b) / (sqrt(dot(a, a)) * sqrt(dot(b, b)))`. -/
noncomputable def cosine_similarity (a b : List ℕ) : ℝ :=
  (dotL a b : ℝ) / (Real.sqrt (dotL a a) * Real.sqrt (dotL b b))

/-- Fixture grayscale table image for the zero-denominator claim: 10 pixel
rows of one mid-intensity pixel, shorter than the outline of `tblPredict`. -/
def imgPredict : List (List ℕ) :=
  List.replicate 10 [100]

/-- Fixture table whose outline height (50) exceeds the height (10) of the
actual cropped table image `imgPredict`, with a single recorded row at 5. -/
def tblPredict : Table :=
  { outline := ⟨⟨0, 0⟩, ⟨1, 50⟩⟩, rows := [5], columns := [],
    rotationDegrees := 0 }

/-- Fixture grayscale table image tall enough for every candidate strip of
`tblPredict2` to be nonempty. -/
def imgPredict2 : List (List ℕ) :=
  List.replicate 40 [100, 200]

/-- Fixture table with two recorded rows; all candidate offsets stay inside
`imgPredict2`. -/
def tblPredict2 : Table :=
  { outline := ⟨⟨0, 0⟩, ⟨2, 30⟩⟩, rows := [5, 10], columns := [],
    rotationDegrees := 0 }

theorem pyIndex_le (n : ℕ) (i : ℤ) : pyIndex n i ≤ n := by
  unfold pyIndex
  split
  · omega
  · exact min_le_right _ _

theorem pySlice_length {α : Type} (l : List α) (a b : ℤ) :
    (pySlice l a b).length = pyIndex l.length b - pyIndex l.length a := by
  have hb := pyIndex_le l.length b
  unfold pySlice
  simp [List.length_drop, List.length_take]
  omega

theorem pyIndex_of_nonneg (n : ℕ) (i : ℤ) (h : 0 ≤ i) :
    pyIndex n i = min i.toNat n := by
  unfold pyIndex
  split
  · omega
  · rfl

theorem crop_length {α : Type} (image : List (List α)) (rect : Rectangle) :
    (crop image rect).length =
      pyIndex image.length (max rect.bottomRight.y 0) -
        pyIndex image.length (max rect.topLeft.y 0) := by
  unfold crop
  rw [List.length_map, pySlice_length]

theorem crop_mem_row {α : Type} (image : List (List α)) (rect : Rectangle)
    (row : List α) (h : row ∈ crop image rect) :
    ∃ row0 ∈ image,
      row = pySlice row0 (max rect.topLeft.x 0) (max rect.bottomRight.x 0) := by
  unfold crop at h
  rw [List.mem_map] at h
  obtain ⟨row0, hmem, heq⟩ := h
  unfold pySlice at hmem
  exact ⟨row0, List.mem_of_mem_take (List.mem_of_mem_drop hmem), heq.symm⟩

/-- C4: `crop` is exactly the doubly clamped numpy slice: negative corner
coordinates are clamped to zero and the far bound is truncated to the image
edge by the slicing semantics itself, so no input errors; in particular a
100-high, 200-wide, 3-channel image cropped with the rectangle
`(-10,-10)-(210,110)` yields a result of shape `(100, 200, 3)`. -/
theorem crop_clamp_spec :
    (∀ (image : List (List (List ℕ))) (rect : Rectangle),
      crop image rect =
        (pySlice image (max rect.topLeft.y 0) (max rect.bottomRight.y 0)).map
          (fun row => pySlice row (max rect.topLeft.x 0) (max rect.bottomRight.x 0))) ∧
    (∀ (image : List (List (List ℕ))) (rect : Rectangle),
      (crop image rect).length =
        pyIndex image.length (max rect.bottomRight.y 0) -
          pyIndex image.length (max rect.topLeft.y 0)) ∧
    (∀ (image : List (List (List ℕ))),
      image.length = 100 →
      (∀ row ∈ image, row.length = 200 ∧ ∀ px ∈ row, px.length = 3) →
      (crop image ⟨⟨-10, -10⟩, ⟨210, 110⟩⟩).length = 100 ∧
        ∀ row ∈ crop image ⟨⟨-10, -10⟩, ⟨210, 110⟩⟩,
          row.length = 200 ∧ ∀ px ∈ row, px.length = 3) := by
  refine ⟨fun image rect => rfl, fun image rect => crop_length image rect, ?_⟩
  intro image hlen hrows
  constructor
  · rw [crop_length, hlen]
    norm_num [pyIndex]
  · intro row hrow
    obtain ⟨row0, hmem, heq⟩ := crop_mem_row _ _ _ hrow
    obtain ⟨hrl, hpx⟩ := hrows row0 hmem
    constructor
    · rw [heq, pySlice_length, hrl]
      norm_num [pyIndex]
    · intro px hpx2
      apply hpx
      rw [heq] at hpx2
      unfold pySlice at hpx2
      exact List.mem_of_mem_take (List.mem_of_mem_drop hpx2)

/-- Witness for C4 at the all-zero 100 × 200 × 3 fixture image. -/
theorem crop_clamp_spec_witness :
    (crop imgFixture ⟨⟨-10, -10⟩, ⟨210, 110⟩⟩).length = 100 :=
  (crop_clamp_spec.2.2 imgFixture (by rw [imgFixture]; exact List.length_replicate _ _)
    (by
      intro row hrow
      rw [imgFixture, List.mem_replicate] at hrow
      rw [hrow.2]
      refine ⟨List.length_replicate _ _, ?_⟩
      intro px hpx
      rw [List.mem_replicate] at hpx
      rw [hpx.2]
      exact List.length_replicate _ _)).1

theorem getD_map_range {α : Type} (n i : ℕ) (h : i < n) (f : ℕ → α) (d : α) :
    ((List.range n).map f).getD i d = f i := by
  rw [List.getD_eq_getElem?_getD, List.getElem?_map, List.getElem?_range h]
  rfl

/-- C1: for a table with `R` row boundaries and `C` column boundaries,
`get_cell_grid` returns `R+1` rows of `C+1` cells, and cell `(i, j)` is the
rectangle from `(columns[j], rows[i])` to `(columns[j+1], rows[i+1])` over the
boundary lists `[0] + table.rows + [height]` and `[0] + table.columns +
[width]`. -/
theorem get_cell_grid_spec (table : Table) :
    (get_cell_grid table).length = table.rows.length + 1 ∧
    (∀ row ∈ get_cell_grid table, row.length = table.columns.length + 1) ∧
    (∀ i j, i < table.rows.length + 1 → j < table.columns.length + 1 →
      ((get_cell_grid table).getD i []).getD j ⟨⟨0, 0⟩, ⟨0, 0⟩⟩ =
        { topLeft := ⟨(0 :: table.columns ++ [table.outline.width]).getD j 0,
                      (0 :: table.rows ++ [table.outline.height]).getD i 0⟩
          bottomRight := ⟨(0 :: table.columns ++ [table.outline.width]).getD (j + 1) 0,
                          (0 :: table.rows ++ [table.outline.height]).getD (i + 1) 0⟩ }) := by
  refine ⟨?_, ?_, ?_⟩
  · simp [get_cell_grid]
  · intro row hrow
    simp only [get_cell_grid, List.mem_map] at hrow
    obtain ⟨r_i, _, heq⟩ := hrow
    rw [← heq]
    simp
  · intro i j hi hj
    have h1 : get_cell_grid table =
        (List.range (table.rows.length + 1)).map (fun r_i =>
          (List.range (table.columns.length + 1)).map (fun c_i =>
            ({ topLeft := ⟨(0 :: table.columns ++ [table.outline.width]).getD c_i 0,
                           (0 :: table.rows ++ [table.outline.height]).getD r_i 0⟩
               bottomRight :=
                ⟨(0 :: table.columns ++ [table.outline.width]).getD (c_i + 1) 0,
                 (0 :: table.rows ++ [table.outline.height]).getD (r_i + 1) 0⟩ } :
              Rectangle))) := by
      simp [get_cell_grid]
    rw [h1, getD_map_range _ _ hi, getD_map_range _ _ hj]

/-- Witness for C1 at the fixture table: cell `(1, 2)` spans from `(20, 10)`
to `(30, 20)`. -/
theorem get_cell_grid_spec_witness :
    ((get_cell_grid tblFixture).getD 1 []).getD 2 ⟨⟨0, 0⟩, ⟨0, 0⟩⟩ =
      ⟨⟨20, 10⟩, ⟨30, 20⟩⟩ :=
  ((get_cell_grid_spec tblFixture).2.2 1 2 (by decide) (by decide)).trans (by decide)

/-- C8: `extract_table_image` is `crop` applied to the rotated image with the
outline translated by `(5, 5)`; when the rotated image has shape `(H, W, 3)`
and the translated outline lies within it, the output has shape
`(outline.height, outline.width, 3)`. -/
theorem extract_table_image_spec :
    (∀ (rotateF : List (List (List ℕ)) → ℚ → List (List (List ℕ)))
        (image : List (List (List ℕ))) (table : Table),
      extract_table_image rotateF image table =
        crop (rotateF image (-table.rotationDegrees))
          (table.outline.translate ⟨5, 5⟩)) ∧
    (∀ (rotateF : List (List (List ℕ)) → ℚ → List (List (List ℕ)))
        (image : List (List (List ℕ))) (table : Table) (H W : ℕ),
      (rotateF image (-table.rotationDegrees)).length = H →
      (∀ row ∈ rotateF image (-table.rotationDegrees),
        row.length = W ∧ ∀ px ∈ row, px.length = 3) →
      0 ≤ table.outline.topLeft.y + 5 →
      0 ≤ table.outline.topLeft.x + 5 →
      table.outline.topLeft.y ≤ table.outline.bottomRight.y →
      table.outline.topLeft.x ≤ table.outline.bottomRight.x →
      table.outline.bottomRight.y + 5 ≤ (H : ℤ) →
      table.outline.bottomRight.x + 5 ≤ (W : ℤ) →
      (extract_table_image rotateF image table).length = table.outline.height.toNat ∧
        ∀ row ∈ extract_table_image rotateF image table,
          row.length = table.outline.width.toNat ∧ ∀ px ∈ row, px.length = 3) := by
  refine ⟨fun rotateF image table => rfl, ?_⟩
  intro rotateF image table H W hH hrows h1 h2 h3 h4 h5 h6
  have hdef : extract_table_image rotateF image table =
      crop (rotateF image (-table.rotationDegrees))
        (table.outline.translate ⟨5, 5⟩) := rfl
  constructor
  · rw [hdef, crop_length, hH]
    simp only [Rectangle.translate, Point.translate, Rectangle.height, pyIndex]
    split <;> split <;> simp_all <;> omega
  · intro row hrow
    rw [hdef] at hrow
    obtain ⟨row0, hmem, heq⟩ := crop_mem_row _ _ _ hrow
    obtain ⟨hrl, hpx⟩ := hrows row0 hmem
    constructor
    · rw [heq, pySlice_length, hrl]
      simp only [Rectangle.translate, Point.translate, Rectangle.width, pyIndex]
      split <;> split <;> simp_all <;> omega
    · intro px hpx2
      apply hpx
      rw [heq] at hpx2
      unfold pySlice at hpx2
      exact List.mem_of_mem_take (List.mem_of_mem_drop hpx2)

/-- Witness for C8: identity rotation on a 20 × 20 × 3 image with a 5 × 5
outline gives a 5-row extraction. -/
theorem extract_table_image_spec_witness :
    (extract_table_image (fun i _ => i) imgExtract tblExtract).length = 5 :=
  (extract_table_image_spec.2 (fun i _ => i) imgExtract tblExtract 20 20
    (by rw [imgExtract]; exact List.length_replicate _ _)
    (by
      intro row hrow
      rw [imgExtract, List.mem_replicate] at hrow
      rw [hrow.2]
      refine ⟨List.length_replicate _ _, ?_⟩
      intro px hpx
      rw [List.mem_replicate] at hpx
      rw [hpx.2]
      exact List.length_replicate _ _)
    (by decide) (by decide) (by decide) (by decide) (by decide) (by decide)).1

theorem lookup_filter_ne (fs : List (String × FileData)) (k k' : String)
    (h : k' ≠ k) :
    fsLookup (fs.filter (fun p => decide (p.1 ≠ k))) k' = fsLookup fs k' := by
  induction fs with
  | nil => rfl
  | cons p rest ih =>
    obtain ⟨k2, v2⟩ := p
    by_cases hpk : k2 = k
    · subst hpk
      have hfilter : List.filter (fun p => decide (p.1 ≠ k2)) ((k2, v2) :: rest) =
          List.filter (fun p => decide (p.1 ≠ k2)) rest := by
        simp [List.filter_cons]
      rw [hfilter, ih]
      show fsLookup rest k' = if k' = k2 then some v2 else fsLookup rest k'
      rw [if_neg h]
    · have hfilter : List.filter (fun p => decide (p.1 ≠ k)) ((k2, v2) :: rest) =
          (k2, v2) :: List.filter (fun p => decide (p.1 ≠ k)) rest := by
        simp [List.filter_cons, hpk]
      rw [hfilter]
      show (if k' = k2 then some v2
          else fsLookup (List.filter (fun p => decide (p.1 ≠ k)) rest) k') =
        (if k' = k2 then some v2 else fsLookup rest k')
      by_cases hpk2 : k' = k2
      · rw [if_pos hpk2, if_pos hpk2]
      · rw [if_neg hpk2, if_neg hpk2]
        exact ih

theorem fsWrite_lookup (fs : List (String × FileData)) (k k' : String)
    (v : FileData) :
    fsLookup (fsWrite fs k v) k' = if k' = k then some v else fsLookup fs k' := by
  have h0 : fsLookup (fsWrite fs k v) k' =
      if k' = k then some v
      else fsLookup (fs.filter (fun p => decide (p.1 ≠ k))) k' := rfl
  rw [h0]
  by_cases h : k' = k
  · rw [if_pos h, if_pos h]
  · rw [if_neg h, if_neg h]
    exact lookup_filter_ne fs k k' h

/-- C6: when the basename-sanitised image name is not a file of the image
directory, both table endpoints answer 404 with their documented messages,
and the POST handler leaves the directory untouched. -/
theorem tables_missing_image_404 (fs : List (String × FileData))
    (image_name : String) (body : JVal)
    (h : (fsLookup fs (basename image_name)).isSome = false) :
    store_tables fs image_name body =
      ((404, RespBody.msg
        "The image for which you tried to save table data does not exist."), fs) ∧
    get_tables fs image_name =
      some (404, RespBody.msg
        "The image for which you tried to retrieve table data does not exist.") := by
  constructor
  · unfold store_tables
    rw [if_pos h]
  · unfold get_tables
    rw [if_pos h]

/-- Witness for C6: a directory holding only `a.jpg`, queried for `b.jpg`. -/
theorem tables_missing_image_404_witness :
    store_tables [("a.jpg", FileData.image)] "b.jpg" (JVal.arr []) =
      ((404, RespBody.msg
        "The image for which you tried to save table data does not exist."),
       [("a.jpg", FileData.image)]) :=
  (tables_missing_image_404 [("a.jpg", FileData.image)] "b.jpg" (JVal.arr [])
    (by decide)).1

/-- C7: for an image present in the directory, POSTing any JSON body and then
GETting the same image name returns 200 with exactly that body as `tables`. -/
theorem tables_round_trip (fs : List (String × FileData)) (image_name : String)
    (body : JVal)
    (h : (fsLookup fs (basename image_name)).isSome = true) :
    get_tables (store_tables fs image_name body).2 image_name =
      some (200, RespBody.tables body) := by
  have hne : ¬((fsLookup fs (basename image_name)).isSome = false) := by
    rw [h]; simp
  unfold store_tables
  rw [if_neg hne]
  unfold get_tables
  set b := basename image_name with hb
  set jn := splitextRoot b ++ ".json" with hjn
  set fs2 := fsWrite fs jn (FileData.jsonF body) with hfs2
  have hwr : ∀ k', fsLookup fs2 k' = if k' = jn then some (FileData.jsonF body)
      else fsLookup fs k' := fun k' => fsWrite_lookup fs jn k' _
  have hlb : (fsLookup fs2 b).isSome = true := by
    rw [hwr b]
    by_cases hbjn : b = jn
    · rw [if_pos hbjn]; rfl
    · rw [if_neg hbjn]; exact h
  have hlbne : ¬((fsLookup fs2 b).isSome = false) := by rw [hlb]; simp
  rw [if_neg hlbne]
  have hljn : fsLookup fs2 jn = some (FileData.jsonF body) := by
    rw [hwr jn, if_pos rfl]
  rw [hljn]

/-- Witness for C7: posting an empty table list for `a.jpg` and reading it
back. -/
theorem tables_round_trip_witness :
    get_tables
        (store_tables [("a.jpg", FileData.image)] "a.jpg" (JVal.arr [])).2
        "a.jpg" =
      some (200, RespBody.tables (JVal.arr [])) :=
  tables_round_trip [("a.jpg", FileData.image)] "a.jpg" (JVal.arr []) (by decide)

/-- C10: a directory entry appears in the `GET /images` listing exactly when
its extension is the lowercase string `.jpeg` or `.jpg`; extensions differing
in case (such as `.JPG`) are excluded. -/
theorem list_images_filter_spec (files : List String) (dims : String → ℕ × ℕ)
    (f : String) :
    f ∈ (list_images files dims).map ImageMeta.name ↔
      f ∈ files ∧ (splitextExt f = ".jpeg" ∨ splitextExt f = ".jpg") := by
  unfold list_images
  rw [List.map_map, List.mem_map]
  constructor
  · rintro ⟨a, ha, rfl⟩
    rw [List.mem_filter] at ha
    refine ⟨ha.1, ?_⟩
    have := ha.2
    simp only [Bool.or_eq_true, decide_eq_true_eq] at this
    exact this
  · rintro ⟨hmem, hext⟩
    refine ⟨f, ?_, rfl⟩
    rw [List.mem_filter]
    refine ⟨hmem, ?_⟩
    simp only [Bool.or_eq_true, decide_eq_true_eq]
    exact hext

theorem set_append_length {α : Type} (pre : List α) (x y : α) (rest : List α) :
    (pre ++ x :: rest).set pre.length y = pre ++ y :: rest := by
  induction pre with
  | nil => rfl
  | cons a p ih => simp [List.set, ih]

theorem getD_append_length {α : Type} (pre : List α) (x : α) (rest : List α)
    (d : α) : (pre ++ x :: rest).getD pre.length d = x := by
  rw [List.getD_eq_getElem?_getD, List.getElem?_append_right (le_refl _)]
  simp

theorem sortPairs_eq_self {α : Type} (l : List ((ℕ × ℕ) × α))
    (h : l.Pairwise (fun a b => lexLe a.1 b.1 = true)) : sortPairs l = l := by
  induction l with
  | nil => rfl
  | cons kv rest ih =>
    rw [List.pairwise_cons] at h
    show insertPair kv (sortPairs rest) = kv :: rest
    rw [ih h.2]
    cases rest with
    | nil => rfl
    | cons kv2 rest2 =>
      show (if lexLe kv.1 kv2.1 = true then _ else _) = _
      rw [if_pos (h.1 kv2 (List.mem_cons_self _ _))]

theorem rowPairs_key {α : Type} (i acc : ℕ) :
    ∀ (j : ℕ) (l : List α) (kv : (ℕ × ℕ) × ℕ), kv ∈ rowPairs i acc j l →
      kv.1.1 = i ∧ j ≤ kv.1.2 := by
  intro j l
  induction l generalizing j with
  | nil => intro kv hkv; simp [rowPairs] at hkv
  | cons a rest ih =>
    intro kv hkv
    rw [rowPairs, List.mem_cons] at hkv
    rcases hkv with h | h
    · rw [h]
      exact ⟨rfl, le_refl _⟩
    · obtain ⟨h1, h2⟩ := ih (j + 1) kv h
      exact ⟨h1, by omega⟩

theorem rowPairs_pairwise {α : Type} (i acc : ℕ) :
    ∀ (j : ℕ) (l : List α),
      (rowPairs i acc j l).Pairwise (fun a b => lexLe a.1 b.1 = true) := by
  intro j l
  induction l generalizing j with
  | nil => exact List.Pairwise.nil
  | cons a rest ih =>
    rw [rowPairs, List.pairwise_cons]
    refine ⟨?_, ih (j + 1)⟩
    intro kv hkv
    obtain ⟨h1, h2⟩ := rowPairs_key i acc (j + 1) rest kv hkv
    simp [lexLe, h1]
    omega

theorem cg2lRows_key {α : Type} :
    ∀ (grid : List (List α)) (i acc : ℕ) (kv : (ℕ × ℕ) × ℕ),
      kv ∈ cg2lRows i acc grid → i ≤ kv.1.1 := by
  intro grid
  induction grid with
  | nil => intro i acc kv hkv; simp [cg2lRows] at hkv
  | cons row rest ih =>
    intro i acc kv hkv
    rw [cg2lRows, List.mem_append] at hkv
    rcases hkv with h | h
    · exact (rowPairs_key i acc 0 row kv h).1.ge
    · exact (Nat.le_succ i).trans (ih (i + 1) (acc + row.length) kv h)

theorem cg2lRows_pairwise {α : Type} :
    ∀ (grid : List (List α)) (i acc : ℕ),
      (cg2lRows i acc grid).Pairwise (fun a b => lexLe a.1 b.1 = true) := by
  intro grid
  induction grid with
  | nil => intro i acc; exact List.Pairwise.nil
  | cons row rest ih =>
    intro i acc
    rw [cg2lRows, List.pairwise_append]
    refine ⟨rowPairs_pairwise i acc 0 row, ih (i + 1) (acc + row.length), ?_⟩
    intro a ha b hb
    have h1 := (rowPairs_key i acc 0 row a ha).1
    have h2 := cg2lRows_key rest (i + 1) (acc + row.length) b hb
    simp [lexLe, h1]
    omega

theorem l2cgStep_append {α : Type} (cells : List α) (pre : List (List α))
    (cur : List α) (j v : ℕ) (c : α) (hc : cells[v]? = some c) :
    l2cgStep cells (some (pre ++ [cur], some pre.length)) ((pre.length, j), v) =
      some (pre ++ [cur ++ [c]], some pre.length) := by
  simp only [l2cgStep, if_true]
  rw [hc]
  have hlen : pre.length < (pre ++ [cur]).length := by simp
  rw [if_pos hlen]
  rw [getD_append_length pre cur [] _]
  show some ((pre ++ [cur]).set pre.length (cur ++ [c]), some pre.length) =
    some (pre ++ [cur ++ [c]], some pre.length)
  rw [set_append_length pre cur (cur ++ [c]) []]

theorem l2cgStep_new_row {α : Type} (cells : List α) (grid : List (List α))
    (last : Option ℕ) (j v : ℕ) (c : α) (hlast : last ≠ some grid.length)
    (hc : cells[v]? = some c) :
    l2cgStep cells (some (grid, last)) ((grid.length, j), v) =
      some (grid ++ [[c]], some grid.length) := by
  simp only [l2cgStep]
  rw [if_neg hlast, hc]
  have hlen : grid.length < (grid ++ [[]]).length := by simp
  rw [if_pos hlen]
  rw [getD_append_length grid [] [] _]
  show some ((grid ++ [[]]).set grid.length ([] ++ [c]), some grid.length) =
    some (grid ++ [[c]], some grid.length)
  rw [set_append_length grid [] ([] ++ [c]) []]
  simp

theorem foldl_rowPairs {α : Type} (cells : List α) (acc : ℕ)
    (suffix : List α) :
    ∀ (j : ℕ) (pre : List (List α)) (cur : List α),
      (∀ k, k < suffix.length → cells[acc + j + k]? = suffix[k]?) →
      (rowPairs pre.length acc j suffix).foldl (l2cgStep cells)
          (some (pre ++ [cur], some pre.length)) =
        some (pre ++ [cur ++ suffix], some pre.length) := by
  induction suffix with
  | nil => intro j pre cur _; simp [rowPairs]
  | cons a rest ih =>
    intro j pre cur hc
    rw [rowPairs, List.foldl_cons]
    have h0 : cells[acc + j]? = some a := by
      have := hc 0 (by simp)
      simpa using this
    rw [l2cgStep_append cells pre cur j (acc + j) a h0]
    have hrec := ih (j + 1) pre (cur ++ [a]) ?_
    · rw [hrec, List.append_assoc]
      rfl
    · intro k hk
      have heq : acc + (j + 1) + k = acc + j + (k + 1) := by omega
      rw [heq, hc (k + 1) (by simpa using Nat.succ_lt_succ hk)]
      simp

theorem foldl_row_full {α : Type} (cells : List α) (acc : ℕ) (row : List α)
    (hrow : row ≠ []) (pre : List (List α)) (last : Option ℕ)
    (hlast : last ≠ some pre.length)
    (hc : ∀ k, k < row.length → cells[acc + k]? = row[k]?) :
    (rowPairs pre.length acc 0 row).foldl (l2cgStep cells) (some (pre, last)) =
      some (pre ++ [row], some pre.length) := by
  cases row with
  | nil => exact absurd rfl hrow
  | cons a rest =>
    rw [rowPairs, List.foldl_cons]
    have h0 : cells[acc + 0]? = some a := by
      have := hc 0 (by simp)
      simpa using this
    have h0' : cells[acc + 0]? = some a := h0
    rw [l2cgStep_new_row cells pre last 0 (acc + 0) a hlast h0']
    have hrec := foldl_rowPairs cells acc rest 1 pre [a] ?_
    · rw [hrec]
      rfl
    · intro k hk
      have heq : acc + 1 + k = acc + (k + 1) := by omega
      rw [heq, hc (k + 1) (by simpa using Nat.succ_lt_succ hk)]
      simp

theorem foldl_grid {α : Type} (cells : List α) :
    ∀ (grid : List (List α)) (acc : ℕ) (pre : List (List α)) (last : Option ℕ),
      (∀ m, last = some m → m < pre.length) →
      (∀ row ∈ grid, row ≠ []) →
      (∀ k, k < grid.flatten.length → cells[acc + k]? = grid.flatten[k]?) →
      ∃ last2,
        (cg2lRows pre.length acc grid).foldl (l2cgStep cells) (some (pre, last)) =
          some (pre ++ grid, last2) ∧
        ∀ m, last2 = some m → m < pre.length + grid.length := by
  intro grid
  induction grid with
  | nil =>
    intro acc pre last hlast _ _
    refine ⟨last, by simp [cg2lRows], ?_⟩
    intro m hm
    exact (hlast m hm).trans_le (Nat.le_add_right _ 0)
  | cons row rest ih =>
    intro acc pre last hlast hrows hc
    rw [cg2lRows, List.foldl_append]
    have hlast2 : last ≠ some pre.length := by
      intro h
      exact absurd (hlast pre.length h) (lt_irrefl _)
    have hcrow : ∀ k, k < row.length → cells[acc + k]? = row[k]? := by
      intro k hk
      have hflat : (row :: rest).flatten = row ++ rest.flatten := rfl
      have hlen : k < (row :: rest).flatten.length := by
        rw [hflat, List.length_append]
        omega
      rw [hc k hlen, hflat, List.getElem?_append_left hk]
    rw [foldl_row_full cells acc row (hrows row (List.mem_cons_self _ _)) pre
      last hlast2 hcrow]
    have hlen2 : (pre ++ [row]).length = pre.length + 1 := by simp
    have hrec := ih (acc + row.length) (pre ++ [row]) (some pre.length) ?_ ?_ ?_
    · obtain ⟨last2, heq, hbound⟩ := hrec
      rw [hlen2] at heq
      refine ⟨last2, ?_, ?_⟩
      · rw [heq, List.append_assoc]
        rfl
      · intro m hm
        have := hbound m hm
        rw [hlen2] at this
        simpa [Nat.add_comm, Nat.add_assoc, Nat.add_left_comm] using
          this.trans_le (by omega)
    · intro m hm
      rw [hlen2]
      injection hm with hm2
      omega
    · intro r hr
      exact hrows r (List.mem_cons_of_mem _ hr)
    · intro k hk
      have hflat : (row :: rest).flatten = row ++ rest.flatten := rfl
      have hlen3 : row.length + k < (row :: rest).flatten.length := by
        rw [hflat, List.length_append]
        omega
      have heq : acc + row.length + k = acc + (row.length + k) := by omega
      rw [heq, hc (row.length + k) hlen3, hflat,
        List.getElem?_append_right (Nat.le_add_right _ _)]
      simp

/-- C3: the claim fails on grids containing an empty row: the mapping holds
no key for an empty row, so `list_to_cell_grid` silently drops a trailing
empty row (and raises `IndexError` for an interior one); round-tripping
`[[7], []]` yields `[[7]]`, not the original grid. The round trip does hold
for every grid all of whose rows are nonempty. -/
theorem grid_round_trip {α : Type} (grid : List (List α))
    (hrows : ∀ row ∈ grid, row ≠ []) :
    list_to_cell_grid (cell_grid_to_list grid).1 (cell_grid_to_list grid).2 =
      some grid := by
  unfold list_to_cell_grid cell_grid_to_list
  rw [sortPairs_eq_self _ (cg2lRows_pairwise grid 0 0)]
  have h0 : (0 : ℕ) = ([] : List (List α)).length := rfl
  obtain ⟨last2, heq, _⟩ :=
    foldl_grid grid.flatten grid 0 ([] : List (List α)) none
      (fun m hm => Option.noConfusion hm) hrows
      (by intro k _; rw [Nat.zero_add])
  rw [show cg2lRows 0 0 grid = cg2lRows ([] : List (List α)).length 0 grid from rfl,
    heq]
  rfl

/-- Counterexample to C3 as stated: the grid `[[7], []]` (which contains an
empty row) does not round-trip through `cell_grid_to_list` and
`list_to_cell_grid`. -/
theorem grid_round_trip_counterexample :
    ¬(list_to_cell_grid (cell_grid_to_list [[7], ([] : List ℕ)]).1
        (cell_grid_to_list [[7], ([] : List ℕ)]).2 =
      some [[7], ([] : List ℕ)]) := by
  decide

/-- Witness for C3 (amended): the all-rows-nonempty grid `[[1], [2, 3]]`
round-trips. -/
theorem grid_round_trip_witness :
    list_to_cell_grid (cell_grid_to_list [[1], [2, (3 : ℕ)]]).1
        (cell_grid_to_list [[1], [2, (3 : ℕ)]]).2 =
      some [[1], [2, (3 : ℕ)]] :=
  grid_round_trip [[1], [2, 3]] (by decide)

/-- Witness for C10: `a.jpg` is listed while `b.JPG` is not. -/
theorem list_images_filter_spec_witness :
    "a.jpg" ∈ (list_images ["a.jpg", "b.JPG"] (fun _ => (1, 1))).map
        ImageMeta.name ∧
    ¬("b.JPG" ∈ (list_images ["a.jpg", "b.JPG"] (fun _ => (1, 1))).map
        ImageMeta.name) :=
  ⟨(list_images_filter_spec ["a.jpg", "b.JPG"] (fun _ => (1, 1)) "a.jpg").mpr
      ⟨by decide, Or.inr (by decide)⟩,
   fun hmem =>
    by
      have h2 :=
        (list_images_filter_spec ["a.jpg", "b.JPG"] (fun _ => (1, 1))
          "b.JPG").mp hmem
      revert h2
      decide⟩

theorem getD_append_left {α : Type} (pre l2 : List α) (m : ℕ)
    (h : m < pre.length) (d : α) : (pre ++ l2).getD m d = pre.getD m d := by
  rw [List.getD_eq_getElem?_getD, List.getElem?_append_left h,
    ← List.getD_eq_getElem?_getD]

theorem getD_map_of_lt {α β : Type} (f : α → β) (l : List α) (m : ℕ)
    (h : m < l.length) (d : β) (d2 : α) :
    (l.map f).getD m d = f (l.getD m d2) := by
  rw [List.getD_eq_getElem?_getD, List.getElem?_map,
    List.getElem?_eq_getElem h, List.getD_eq_getElem l d2 h]
  rfl

theorem getD_mem_of_lt {α : Type} (l : List α) (m : ℕ) (h : m < l.length)
    (d : α) : l.getD m d ∈ l := by
  rw [List.getD_eq_getElem l d h]
  exact List.getElem_mem h

theorem argmaxAux_spec (rest : List ℚ) :
    ∀ (pre : List ℚ) (bi : ℕ), bi < pre.length →
      (∀ m, m < pre.length → pre.getD m 0 ≤ pre.getD bi 0) →
      (∀ m, m < bi → pre.getD m 0 < pre.getD bi 0) →
      argmaxAux rest pre.length bi (pre.getD bi 0) < (pre ++ rest).length ∧
      (∀ m, m < (pre ++ rest).length →
        (pre ++ rest).getD m 0 ≤
          (pre ++ rest).getD (argmaxAux rest pre.length bi (pre.getD bi 0)) 0) ∧
      (∀ m, m < argmaxAux rest pre.length bi (pre.getD bi 0) →
        (pre ++ rest).getD m 0 <
          (pre ++ rest).getD (argmaxAux rest pre.length bi (pre.getD bi 0)) 0) := by
  induction rest with
  | nil =>
    intro pre bi hbi hmax hfirst
    rw [List.append_nil]
    exact ⟨hbi, hmax, hfirst⟩
  | cons x rest2 ih =>
    intro pre bi hbi hmax hfirst
    have hsplit : pre ++ x :: rest2 = (pre ++ [x]) ++ rest2 := by
      rw [List.append_assoc]
      rfl
    have hlen1 : (pre ++ [x]).length = pre.length + 1 := by simp
    have hgx : (pre ++ [x]).getD pre.length 0 = x := getD_append_length pre x [] 0
    by_cases hlt : pre.getD bi 0 < x
    · have hstep : argmaxAux (x :: rest2) pre.length bi (pre.getD bi 0) =
          argmaxAux rest2 (pre.length + 1) pre.length x := by
        rw [argmaxAux, if_pos hlt]
      have hrec := ih (pre ++ [x]) pre.length (by simp) ?_ ?_
      · rw [hstep, hsplit]
        rw [hlen1, hgx] at hrec
        exact hrec
      · intro m hm
        rw [hlen1] at hm
        rw [hgx]
        by_cases hmp : m < pre.length
        · rw [getD_append_left pre [x] m hmp]
          exact le_of_lt (lt_of_le_of_lt (hmax m hmp) hlt)
        · have : m = pre.length := by omega
          rw [this, hgx]
      · intro m hm
        rw [getD_append_left pre [x] m hm, hgx]
        exact lt_of_le_of_lt (hmax m hm) hlt
    · have hstep : argmaxAux (x :: rest2) pre.length bi (pre.getD bi 0) =
          argmaxAux rest2 (pre.length + 1) bi (pre.getD bi 0) := by
        rw [argmaxAux, if_neg hlt]
      have hgb : (pre ++ [x]).getD bi 0 = pre.getD bi 0 :=
        getD_append_left pre [x] bi hbi 0
      have hrec := ih (pre ++ [x]) bi (by simp; omega) ?_ ?_
      · rw [hstep, hsplit]
        rw [hlen1, hgb] at hrec
        exact hrec
      · intro m hm
        rw [hlen1] at hm
        rw [hgb]
        by_cases hmp : m < pre.length
        · rw [getD_append_left pre [x] m hmp]
          exact hmax m hmp
        · have : m = pre.length := by omega
          rw [this, hgx]
          exact le_of_not_lt hlt
      · intro m hm
        rw [hgb, getD_append_left pre [x] m (lt_trans hm hbi)]
        exact hfirst m hm

theorem argmaxIdx_spec (l : List ℚ) (hne : l ≠ []) :
    argmaxIdx l < l.length ∧
    (∀ m, m < l.length → l.getD m 0 ≤ l.getD (argmaxIdx l) 0) ∧
    (∀ m, m < argmaxIdx l → l.getD m 0 < l.getD (argmaxIdx l) 0) := by
  cases l with
  | nil => exact absurd rfl hne
  | cons x rest =>
    have h0 : argmaxIdx (x :: rest) = argmaxAux rest [x].length 0 ([x].getD 0 0) :=
      rfl
    have hrec := argmaxAux_spec rest [x] 0 (by simp) ?_ ?_
    · rw [h0]
      exact hrec
    · intro m hm
      simp only [List.length_singleton] at hm
      have : m = 0 := by omega
      rw [this]
    · intro m hm
      exact absurd hm (Nat.not_lt_zero m)

theorem simKey_le_iff (p b c : List ℕ) (hp : 0 < dotL p p) (hb : 0 < dotL b b)
    (hc : 0 < dotL c c) :
    simKey p b ≤ simKey p c ↔
      cosine_similarity p b ≤ cosine_similarity p c := by
  have hkey0 : ∀ x : List ℕ, simKey p x = (dotL p x : ℚ) ^ 2 / (dotL x x : ℚ) := by
    intro x
    unfold simKey
    rw [Rat.mkRat_eq_div]
    push_cast
    ring
  have key : simKey p b ≤ simKey p c ↔
      dotL p b ^ 2 * dotL c c ≤ dotL p c ^ 2 * dotL b b := by
    rw [hkey0 b, hkey0 c,
      div_le_div_iff₀ (by exact_mod_cast hb) (by exact_mod_cast hc)]
    constructor
    · intro h; exact_mod_cast h
    · intro h; exact_mod_cast h
  rw [key]
  unfold cosine_similarity
  have hPr : (0 : ℝ) < Real.sqrt (dotL p p) :=
    Real.sqrt_pos.mpr (by exact_mod_cast hp)
  have hBr : (0 : ℝ) < Real.sqrt (dotL b b) :=
    Real.sqrt_pos.mpr (by exact_mod_cast hb)
  have hCr : (0 : ℝ) < Real.sqrt (dotL c c) :=
    Real.sqrt_pos.mpr (by exact_mod_cast hc)
  rw [div_le_div_iff₀ (mul_pos hPr hBr) (mul_pos hPr hCr)]
  have hrearr : ((dotL p b : ℝ) * (Real.sqrt (dotL p p) * Real.sqrt (dotL c c)) ≤
      (dotL p c : ℝ) * (Real.sqrt (dotL p p) * Real.sqrt (dotL b b))) ↔
      ((dotL p b : ℝ) * Real.sqrt (dotL c c) ≤
        (dotL p c : ℝ) * Real.sqrt (dotL b b)) := by
    rw [show (dotL p b : ℝ) * (Real.sqrt (dotL p p) * Real.sqrt (dotL c c)) =
        Real.sqrt (dotL p p) * ((dotL p b : ℝ) * Real.sqrt (dotL c c)) by ring,
      show (dotL p c : ℝ) * (Real.sqrt (dotL p p) * Real.sqrt (dotL b b)) =
        Real.sqrt (dotL p p) * ((dotL p c : ℝ) * Real.sqrt (dotL b b)) by ring]
    exact mul_le_mul_left hPr
  rw [hrearr]
  have hx : (0 : ℝ) ≤ (dotL p b : ℝ) * Real.sqrt (dotL c c) := by positivity
  have hy : (0 : ℝ) ≤ (dotL p c : ℝ) * Real.sqrt (dotL b b) := by positivity
  rw [← pow_le_pow_iff_left₀ hx hy two_ne_zero, mul_pow, mul_pow,
    Real.sq_sqrt (by positivity), Real.sq_sqrt (by positivity)]
  constructor
  · intro h; exact_mod_cast h
  · intro h; exact_mod_cast h

theorem simKey_lt_iff (p b c : List ℕ) (hp : 0 < dotL p p) (hb : 0 < dotL b b)
    (hc : 0 < dotL c c) :
    simKey p b < simKey p c ↔
      cosine_similarity p b < cosine_similarity p c :=
  lt_iff_lt_of_le_iff_le (simKey_le_iff p c b hp hc hb)

theorem candidate_pairwise (table : Table) :
    (candidate_row_positions table).Pairwise (· < ·) := by
  unfold candidate_row_positions
  apply List.Pairwise.filter
  unfold intRange
  rw [List.pairwise_map]
  refine List.Pairwise.imp ?_ (List.pairwise_lt_range _)
  intro x y h
  omega

/-- C5: the prediction is absent exactly when no row is recorded or every
candidate offset in the 20-wide search window reaches at least the outline
height; otherwise it returns some offset. -/
theorem predict_none_iff (table_image : List (List ℕ)) (table : Table) :
    predict_next_row_position table_image table = none ↔
      (table.rows = [] ∨
        ∀ c ∈ intRange (search_center table - 10) (search_center table + 10),
          table.outline.height ≤ c) := by
  unfold predict_next_row_position
  by_cases h0 : table.rows.length = 0
  · rw [if_pos h0]
    simp [List.length_eq_zero.mp h0]
  · rw [if_neg h0]
    by_cases h1 : (candidate_row_positions table).length = 0
    · rw [if_pos h1]
      simp only [true_iff]
      right
      intro c hmem
      by_contra hlt
      rw [not_le] at hlt
      have hfil : c ∈ candidate_row_positions table := by
        unfold candidate_row_positions
        rw [List.mem_filter]
        exact ⟨hmem, by simpa using hlt⟩
      rw [List.length_eq_zero.mp h1] at hfil
      cases hfil
    · rw [if_neg h1]
      simp only [iff_false, reduceCtorEq, false_iff, not_or]
      constructor
      · intro h
        exact absurd (List.length_eq_zero.mpr h) h0
      · intro hall
        apply h1
        rw [List.length_eq_zero]
        unfold candidate_row_positions
        rw [List.filter_eq_nil_iff]
        intro c hmem
        simp only [decide_eq_true_eq, not_lt]
        exact hall c hmem

/-- Witness for C5 at a concrete table with no recorded rows. -/
theorem predict_none_iff_witness :
    predict_next_row_position imgPredict
        { outline := ⟨⟨0, 0⟩, ⟨1, 50⟩⟩, rows := [], columns := [],
          rotationDegrees := 0 } = none :=
  (predict_none_iff imgPredict _).mpr (Or.inl rfl)

/-- C2: whenever the prediction returns a value, the candidate list is the
strictly increasing window `[search_center - 10, search_center + 10)`
restricted below the outline height, and the returned value sits at an index
whose strip histogram has maximal cosine similarity to the last recorded
row's strip histogram, every earlier candidate being strictly worse (the
first-occurrence tie-break of `np.argmax`, i.e. the lowest such offset).
Zero histogram vectors (C9) are excluded by the positivity hypotheses. -/
theorem predict_spec (table_image : List (List ℕ)) (table : Table) (v : ℤ)
    (hv : predict_next_row_position table_image table = some v)
    (hprev : 0 < dotL (strip_hist table_image (last_row_position table))
      (strip_hist table_image (last_row_position table)))
    (hcands : ∀ c ∈ candidate_row_positions table,
      0 < dotL (strip_hist table_image c) (strip_hist table_image c)) :
    (candidate_row_positions table).Pairwise (· < ·) ∧
    ∃ idx, idx < (candidate_row_positions table).length ∧
      (candidate_row_positions table).getD idx 0 = v ∧
      (∀ m, m < (candidate_row_positions table).length →
        cosine_similarity (strip_hist table_image (last_row_position table))
            (strip_hist table_image
              ((candidate_row_positions table).getD m 0)) ≤
          cosine_similarity (strip_hist table_image (last_row_position table))
            (strip_hist table_image
              ((candidate_row_positions table).getD idx 0))) ∧
      (∀ m, m < idx →
        cosine_similarity (strip_hist table_image (last_row_position table))
            (strip_hist table_image
              ((candidate_row_positions table).getD m 0)) <
          cosine_similarity (strip_hist table_image (last_row_position table))
            (strip_hist table_image
              ((candidate_row_positions table).getD idx 0))) := by
  refine ⟨candidate_pairwise table, ?_⟩
  unfold predict_next_row_position at hv
  by_cases h0 : table.rows.length = 0
  · rw [if_pos h0] at hv
    cases hv
  · rw [if_neg h0] at hv
    by_cases h1 : (candidate_row_positions table).length = 0
    · rw [if_pos h1] at hv
      cases hv
    · rw [if_neg h1] at hv
      injection hv with hv2
      have hlen : ((candidate_row_positions table).map
          (fun crp => simKey (strip_hist table_image (last_row_position table))
            (strip_hist table_image crp))).length =
          (candidate_row_positions table).length := List.length_map _ _
      have hne : ((candidate_row_positions table).map
          (fun crp => simKey (strip_hist table_image (last_row_position table))
            (strip_hist table_image crp))) ≠ [] := by
        intro h
        apply h1
        rw [← hlen, h]
        rfl
      obtain ⟨hidx, hmax, hfirst⟩ := argmaxIdx_spec _ hne
      rw [hlen] at hidx
      refine ⟨argmaxIdx _, hidx, hv2, ?_, ?_⟩
      · intro m hm
        have h2 := hmax m (by rw [hlen]; exact hm)
        rw [getD_map_of_lt _ _ m hm _ 0, getD_map_of_lt _ _ _ hidx _ 0] at h2
        exact (simKey_le_iff _ _ _ hprev
          (hcands _ (getD_mem_of_lt _ m hm 0))
          (hcands _ (getD_mem_of_lt _ _ hidx 0))).mp h2
      · intro m hm
        have hmlen : m < (candidate_row_positions table).length :=
          lt_trans hm hidx
        have h2 := hfirst m hm
        rw [getD_map_of_lt _ _ m hmlen _ 0, getD_map_of_lt _ _ _ hidx _ 0] at h2
        exact (simKey_lt_iff _ _ _ hprev
          (hcands _ (getD_mem_of_lt _ m hmlen 0))
          (hcands _ (getD_mem_of_lt _ _ hidx 0))).mp h2

/-- Witness for C2 at the two-row fixture: the prediction returns offset 5
and all hypotheses hold concretely. -/
theorem predict_spec_witness :
    (candidate_row_positions tblPredict2).Pairwise (· < ·) ∧
    ∃ idx, idx < (candidate_row_positions tblPredict2).length ∧
      (candidate_row_positions tblPredict2).getD idx 0 = 5 ∧
      (∀ m, m < (candidate_row_positions tblPredict2).length →
        cosine_similarity (strip_hist imgPredict2 (last_row_position tblPredict2))
            (strip_hist imgPredict2
              ((candidate_row_positions tblPredict2).getD m 0)) ≤
          cosine_similarity (strip_hist imgPredict2 (last_row_position tblPredict2))
            (strip_hist imgPredict2
              ((candidate_row_positions tblPredict2).getD idx 0))) ∧
      (∀ m, m < idx →
        cosine_similarity (strip_hist imgPredict2 (last_row_position tblPredict2))
            (strip_hist imgPredict2
              ((candidate_row_positions tblPredict2).getD m 0)) <
          cosine_similarity (strip_hist imgPredict2 (last_row_position tblPredict2))
            (strip_hist imgPredict2
              ((candidate_row_positions tblPredict2).getD idx 0))) :=
  predict_spec imgPredict2 tblPredict2 5 (by decide) (by decide) (by decide)

/-- C9: `cosine_similarity` divides by
`sqrt(dot(a, a)) * sqrt(dot(b, b))` with no zero guard; that denominator is
zero whenever either vector is all zeros, and `predict_next_row_position`
reaches such a vector: for `imgPredict`/`tblPredict` the cropped table image
is shorter (10) than the outline height (50), so candidate offset 10 passes
the filter yet its strip is empty and its histogram is the zero vector,
while the prediction still proceeds to the scoring step. -/
theorem cosine_zero_denominator_spec :
    (∀ a b : List ℕ, cosine_similarity a b =
      (dotL a b : ℝ) / (Real.sqrt (dotL a a) * Real.sqrt (dotL b b))) ∧
    (∀ a b : List ℕ, ((∀ x ∈ a, x = 0) ∨ (∀ x ∈ b, x = 0)) →
      Real.sqrt (dotL a a) * Real.sqrt (dotL b b) = 0) ∧
    (10 : ℤ) ∈ candidate_row_positions tblPredict ∧
    strip_hist imgPredict 10 = [0, 0, 0, 0, 0] ∧
    (imgPredict.length : ℤ) < tblPredict.outline.height ∧
    predict_next_row_position imgPredict tblPredict ≠ none := by
  refine ⟨fun a b => rfl, ?_, by decide, by decide, by decide, by decide⟩
  have hzero : ∀ l : List ℕ, (∀ x ∈ l, x = 0) → dotL l l = 0 := by
    intro l
    induction l with
    | nil => intro _; rfl
    | cons x r ih =>
      intro hl
      have hx : x = 0 := hl x (List.mem_cons_self _ _)
      have hr : dotL r r = 0 := ih (fun y hy => hl y (List.mem_cons_of_mem _ hy))
      show x * x + dotL r r = 0
      rw [hx, hr]
  intro a b h
  rcases h with h | h
  · rw [hzero a h, Nat.cast_zero, Real.sqrt_zero, zero_mul]
  · rw [hzero b h, Nat.cast_zero, Real.sqrt_zero, mul_zero]

/-- Witness for C9: the denominator vanishes for the zero histogram vector
against a nonzero one. -/
theorem cosine_zero_denominator_spec_witness :
    Real.sqrt (dotL [0, 0, 0, 0, 0] [0, 0, 0, 0, 0]) *
      Real.sqrt (dotL [0, 3, 0, 0, 0] [0, 3, 0, 0, 0]) = 0 :=
  cosine_zero_denominator_spec.2.1 [0, 0, 0, 0, 0] [0, 3, 0, 0, 0]
    (Or.inl (by decide))

end TableAnnotator
